import Mathlib

/-
  Shallow embedding of server.py: a small HTTP server that serves static
  files and proxies live-stream requests under the path namespace
  /livelan/ to a fixed upstream origin, rewriting absolute origin URLs
  inside M3U8 playlist bodies.

  Request paths and body text are modelled as List Char (Python str is a
  sequence of code points); raw body bytes as List Nat (each < 256 where
  produced by the UTF-8 encoder).  Transport-level Server and Date
  headers added by the Python standard library are outside the model.
-/

/-- STREAM_SERVER in server.py: the fixed upstream origin authority. -/
def streamServer : List Char := "192.168.6.200:8088".data

/-- The fixed proxy path namespace literal used by the server. -/
def livePfx : List Char := "/livelan/".data

/-- An absolute origin reference with the http scheme. -/
def httpOrigin : List Char := "http://".data ++ streamServer

/-- An absolute origin reference with the https scheme. -/
def httpsOrigin : List Char := "https://".data ++ streamServer

/-- Strip a literal from the front of a character list, returning the rest
on success. -/
def dropLit : List Char → List Char → Option (List Char)
  | [], s => some s
  | _ :: _, [] => none
  | p :: ps, c :: cs => if p = c then dropLit ps cs else none

/-- Consume the optional trailing occurrence of the proxy namespace, as the
greedy optional group of the rewrite pattern does. -/
def skipLive (s : List Char) : List Char :=
  match dropLit livePfx s with
  | some r => r
  | none => s

/-- One attempt of the rewrite pattern at the head of the
text: the regex in server.py matches the scheme, the escaped origin
authority, and an optional trailing /livelan/.  Returns the remainder of
the text after the match. -/
def matchPat (s : List Char) : Option (List Char) :=
  match dropLit httpOrigin s with
  | some r => some (skipLive r)
  | none =>
    match dropLit httpsOrigin s with
    | some r => some (skipLive r)
    | none => none

/-- Fuel-indexed left-to-right global substitution of the origin pattern by
the bare proxy namespace, following re.sub semantics: at each position try
the pattern; on a match emit the replacement and continue after the match,
otherwise copy one character. -/
def subOriginF : Nat → List Char → List Char
  | 0, s => s
  | _ + 1, [] => []
  | n + 1, c :: cs =>
    match matchPat (c :: cs) with
    | some rest => livePfx ++ subOriginF n rest
    | none => c :: subOriginF n cs

/-- The playlist rewrite performed by re.sub in proxy_request. -/
def subOrigin (s : List Char) : List Char := subOriginF s.length s

/-- ASCII lowercasing of a character, as str.lower acts on header names. -/
def lowerChar : Char → Char
  | 'A' => 'a'
  | 'B' => 'b'
  | 'C' => 'c'
  | 'D' => 'd'
  | 'E' => 'e'
  | 'F' => 'f'
  | 'G' => 'g'
  | 'H' => 'h'
  | 'I' => 'i'
  | 'J' => 'j'
  | 'K' => 'k'
  | 'L' => 'l'
  | 'M' => 'm'
  | 'N' => 'n'
  | 'O' => 'o'
  | 'P' => 'p'
  | 'Q' => 'q'
  | 'R' => 'r'
  | 'S' => 's'
  | 'T' => 't'
  | 'U' => 'u'
  | 'V' => 'v'
  | 'W' => 'w'
  | 'X' => 'x'
  | 'Y' => 'y'
  | 'Z' => 'z'
  | c => c

/-- ASCII lowercasing of a header name. -/
def lowerStr (s : String) : String := String.mk (s.data.map lowerChar)

/-- UTF-8 encoding of one code point. -/
def utf8Bytes (c : Char) : List Nat :=
  let n := c.toNat
  if n < 128 then [n]
  else if n < 2048 then [192 + n / 64, 128 + n % 64]
  else if n < 65536 then [224 + n / 4096, 128 + (n / 64) % 64, 128 + n % 64]
  else [240 + n / 262144, 128 + (n / 4096) % 64, 128 + (n / 64) % 64, 128 + n % 64]

/-- UTF-8 encoding of a text, as str.encode with utf-8. -/
def utf8Encode (s : List Char) : List Nat := (s.map utf8Bytes).flatten

/-- The header names the proxy refuses to copy from the upstream response. -/
def excludedHeaders : List String :=
  ["transfer-encoding", "content-encoding", "content-length"]

/-- Copying of upstream headers: every header whose lowercased name is not
in the excluded set is forwarded. -/
def filterHeaders (hs : List (String × String)) : List (String × String) :=
  hs.filter (fun kv => !(excludedHeaders.contains (lowerStr kv.1)))

/-- The fixed header set injected by the overridden end_headers. -/
def corsHeaders : List (String × String) :=
  [("Access-Control-Allow-Origin", "*"),
   ("Access-Control-Allow-Methods", "GET, POST, OPTIONS"),
   ("Access-Control-Allow-Headers", "Content-Type"),
   ("Cache-Control", "no-cache, no-store, must-revalidate"),
   ("Pragma", "no-cache"),
   ("Expires", "0")]

/-- The names of the injected headers. -/
def corsNames : List String :=
  ["Access-Control-Allow-Origin", "Access-Control-Allow-Methods",
   "Access-Control-Allow-Headers", "Cache-Control", "Pragma", "Expires"]

/-- How many headers of a response carry exactly the given name. -/
def headerCount (n : String) (hs : List (String × String)) : Nat :=
  (hs.filter (fun kv => kv.1 == n)).length

/-- How many headers carry the given lowercase name, compared
case-insensitively. -/
def headerCountCI (n : String) (hs : List (String × String)) : Nat :=
  (hs.filter (fun kv => lowerStr kv.1 == n)).length

/-- The chunking of the upstream byte stream performed by iter_content with
chunk_size 8192: successive chunks of at most 8192 bytes. -/
def iterContent (l : List Nat) : List (List Nat) :=
  match l with
  | [] => []
  | b :: bs => (b :: bs).take 8192 :: iterContent ((b :: bs).drop 8192)
termination_by l.length
decreasing_by simp [List.length_drop]; omega

/-- The chunks actually written by the streaming loop, which skips falsy
(empty) chunks. -/
def writtenChunks (b : List Nat) : List (List Nat) :=
  (iterContent b).filter (fun c => !c.isEmpty)

/-- A successful upstream response: status, headers, the raw body bytes and
the decoded body text (resp.text). -/
structure UpstreamOk where
  status : Nat
  headers : List (String × String)
  bodyBytes : List Nat
  bodyText : List Char

/-- The outcome of the upstream fetch performed by requests.get. -/
inductive Fetch where
  | ok (r : UpstreamOk)
  | timeout
  | connFailure
  | otherFailure (msg : String)

/-- A response as written to the client: status code, optional status-line
message, headers in send order, and body bytes. -/
structure Response where
  status : Nat
  reason : Option String
  headers : List (String × String)
  body : List Nat
deriving DecidableEq

/-- The body of the standard-library error page for send_error, which
embeds the code and the message. -/
def errorBody (code : Nat) (message : String) : List Nat :=
  utf8Encode ("Error response: " ++ toString code ++ " " ++ message).data

/-- send_error of the standard library: an error status with the message on
the status line, its own headers, then the injected headers added by the
overridden end_headers, then the error page body. -/
def send_error (code : Nat) (message : String) : Response :=
  { status := code
  , reason := some message
  , headers :=
      [("Connection", "close"),
       ("Content-Type", "text/html;charset=utf-8"),
       ("Content-Length", toString (errorBody code message).length)] ++ corsHeaders
  , body := errorBody code message }

/-- Suffix test on paths, as str.endswith. -/
def endsWithL (suf s : List Char) : Bool := List.isSuffixOf suf s

/-- Literal test at the front of a path, as str.startswith. -/
def startsWithL (p s : List Char) : Bool := (dropLit p s).isSome

/-- The upstream URL built by proxy_request. -/
def targetURL (path : List Char) : List Char := "http://".data ++ streamServer ++ path

/-- proxy_request of server.py, as a function of the request path and of the
outcome of the upstream fetch.  The playlist branch buffers the decoded
text, rewrites origin references, recomputes Content-Length from the UTF-8
re-encoding and sends the whole body; the passthrough branch streams the
raw chunks; the three exception handlers map failures to error responses. -/
def proxy_request (path : List Char) (f : Fetch) : Response :=
  match f with
  | .ok r =>
    if endsWithL ".m3u8".data path then
      let content := subOrigin r.bodyText
      let enc := utf8Encode content
      { status := r.status
      , reason := none
      , headers := filterHeaders r.headers
          ++ [("Content-Length", toString enc.length)] ++ corsHeaders
      , body := enc }
    else
      { status := r.status
      , reason := none
      , headers := filterHeaders r.headers ++ corsHeaders
      , body := (writtenChunks r.bodyBytes).flatten }
  | .timeout => send_error 504 "Gateway Timeout"
  | .connFailure => send_error 502 "Bad Gateway: Cannot connect to stream server"
  | .otherFailure msg => send_error 502 ("Bad Gateway: " ++ msg)

/-- The two handlers a GET request can be routed to. -/
inductive Handler where
  | proxy (path : List Char)
  | staticFile (path : List Char)
deriving DecidableEq

/-- The routing decision of do_GET: proxy when the path starts with the
namespace literal, otherwise static service with the root path replaced by
the default document. -/
def do_GET (path : List Char) : Handler :=
  if startsWithL livePfx path then .proxy path
  else .staticFile (if path = "/".data then "/index.html".data else path)

/-- What the base static file handler produces for a path, before the
injected headers are appended by end_headers.  Kept abstract: the static
server is standard-library code outside the repository. -/
structure StaticOut where
  status : Nat
  headers : List (String × String)
  body : List Nat

/-- The per-request dispatch of the handler class: OPTIONS is terminal with
an empty body; GET is routed by do_GET; any other method is rejected by the
base class.  The second component records the upstream URLs fetched while
handling the request. -/
def handleRequest (st : List Char → StaticOut) (method : String)
    (path : List Char) (f : Fetch) : Response × List (List Char) :=
  if method = "OPTIONS" then
    ({ status := 200, reason := none, headers := corsHeaders, body := [] }, [])
  else if method = "GET" then
    match do_GET path with
    | .proxy p => (proxy_request p f, [targetURL p])
    | .staticFile p =>
      let so := st p
      ({ status := so.status, reason := none
       , headers := so.headers ++ corsHeaders, body := so.body }, [])
  else
    (send_error 501 ("Unsupported method (" ++ method ++ ")"), [])

/-- Executable substring search for a literal inside a text. -/
def hasLit (p : List Char) : List Char → Bool
  | [] => (dropLit p ([] : List Char)).isSome
  | c :: cs => (dropLit p (c :: cs)).isSome || hasLit p cs

/-- The tail of the http origin literal after its first character. -/
def tailHttp : List Char := "ttp://192.168.6.200:8088".data

/-- The tail of the https origin literal after its first character. -/
def tailHttps : List Char := "ttps://192.168.6.200:8088".data

/-- The three-line playlist body of the rewrite test in the spec: an
absolute origin reference with the stream namespace, a bare origin
reference, and a line with no origin reference. -/
def samplePlaylist : List Char :=
  "#EXTM3U\nhttp://192.168.6.200:8088/livelan/seg1.ts\nhttp://192.168.6.200:8088".data

/-- The expected rewriting of the sample playlist. -/
def samplePlaylistRewritten : List Char :=
  "#EXTM3U\n/livelan/seg1.ts\n/livelan/".data

/-- A concrete successful upstream response used by witnesses. -/
def sampleUpstream : UpstreamOk :=
  { status := 200
  , headers := [("Content-Type", "application/vnd.apple.mpegurl")]
  , bodyBytes := [72, 105]
  , bodyText := samplePlaylist }

/-- A concrete upstream response that itself carries a Pragma header. -/
def dupUpstream : UpstreamOk :=
  { status := 200
  , headers := [("Pragma", "no-cache")]
  , bodyBytes := []
  , bodyText := [] }

/-- A concrete static handler used by witnesses. -/
def sampleStatic : List Char → StaticOut :=
  fun _ => { status := 404, headers := [], body := [] }

/-- A proxied playlist path that carries a query string which itself ends
in the playlist suffix. -/
def queryPath : List Char := "/livelan/play.m3u8?token=.m3u8".data

theorem httpOrigin_cons : httpOrigin = 'h' :: tailHttp := by decide

theorem httpsOrigin_cons : httpsOrigin = 'h' :: tailHttps := by decide

theorem dropLit_eq_some {p s r : List Char} :
    dropLit p s = some r ↔ s = p ++ r := by
  induction p generalizing s with
  | nil => simp [dropLit]
  | cons a ps ih =>
    cases s with
    | nil => simp [dropLit]
    | cons c cs =>
      by_cases h : a = c
      · subst h
        simp [dropLit, ih]
      · simp [dropLit, h]
        intro hc
        exact absurd hc.symm h

theorem dropLit_self (p r : List Char) : dropLit p (p ++ r) = some r :=
  dropLit_eq_some.mpr rfl

theorem skipLive_length (s : List Char) : (skipLive s).length ≤ s.length := by
  unfold skipLive
  cases h : dropLit livePfx s with
  | none => exact Nat.le_refl _
  | some r =>
    rw [dropLit_eq_some.mp h]
    simp

theorem matchPat_length {s r : List Char} (h : matchPat s = some r) :
    r.length < s.length := by
  unfold matchPat at h
  cases h1 : dropLit httpOrigin s with
  | some q =>
    rw [h1] at h
    rw [dropLit_eq_some.mp h1]
    have h2 : r = skipLive q := by simpa using h.symm
    have h3 : 0 < httpOrigin.length := by decide
    have := skipLive_length q
    simp [h2]
    omega
  | none =>
    rw [h1] at h
    cases h2 : dropLit httpsOrigin s with
    | some q =>
      rw [h2] at h
      rw [dropLit_eq_some.mp h2]
      have h4 : r = skipLive q := by simpa using h.symm
      have h5 : 0 < httpsOrigin.length := by decide
      have := skipLive_length q
      simp [h4]
      omega
    | none =>
      rw [h2] at h
      simp at h

theorem matchPat_http (q : List Char) :
    matchPat (httpOrigin ++ q) = some (skipLive q) := by
  unfold matchPat
  rw [dropLit_self]

theorem dropLit_append_both (a p s : List Char) :
    dropLit (a ++ p) (a ++ s) = dropLit p s := by
  induction a with
  | nil => rfl
  | cons x xs ih => simp [dropLit, ih]

theorem dropLit_http_of_https (q : List Char) :
    dropLit httpOrigin (httpsOrigin ++ q) = none := by
  have h1 : httpOrigin = "http".data ++ (':' :: "//192.168.6.200:8088".data) := by decide
  have h2 : httpsOrigin ++ q
      = "http".data ++ ('s' :: ("://192.168.6.200:8088".data ++ q)) := by
    have : httpsOrigin = "http".data ++ ('s' :: "://192.168.6.200:8088".data) := by decide
    rw [this]
    simp
  rw [h1, h2, dropLit_append_both]
  simp [dropLit]

theorem matchPat_https (q : List Char) :
    matchPat (httpsOrigin ++ q) = some (skipLive q) := by
  unfold matchPat
  rw [dropLit_http_of_https, dropLit_self]

theorem matchPat_some_cases {s r : List Char} (h : matchPat s = some r) :
    (∃ q, s = httpOrigin ++ q) ∨ (∃ q, s = httpsOrigin ++ q) := by
  unfold matchPat at h
  cases h1 : dropLit httpOrigin s with
  | some q => exact Or.inl ⟨q, dropLit_eq_some.mp h1⟩
  | none =>
    rw [h1] at h
    cases h2 : dropLit httpsOrigin s with
    | some q => exact Or.inr ⟨q, dropLit_eq_some.mp h2⟩
    | none =>
      rw [h2] at h
      simp at h

theorem matchPat_none_head {s : List Char} (h : s.head? ≠ some 'h') :
    matchPat s = none := by
  cases hm : matchPat s with
  | none => rfl
  | some r =>
    exfalso
    rcases matchPat_some_cases hm with ⟨q, hq⟩ | ⟨q, hq⟩
    · rw [httpOrigin_cons] at hq
      exact h (by rw [hq]; rfl)
    · rw [httpsOrigin_cons] at hq
      exact h (by rw [hq]; rfl)

theorem subOriginF_congr : ∀ (m n : Nat) (s : List Char),
    s.length ≤ m → s.length ≤ n → subOriginF m s = subOriginF n s := by
  intro m
  induction m with
  | zero =>
    intro n s hm _
    have hs : s = [] := List.eq_nil_of_length_eq_zero (Nat.le_zero.mp hm)
    subst hs
    cases n <;> simp [subOriginF]
  | succ m ih =>
    intro n s hm hn
    cases s with
    | nil => cases n <;> simp [subOriginF]
    | cons c cs =>
      cases n with
      | zero => simp at hn
      | succ k =>
        simp only [subOriginF]
        cases hp : matchPat (c :: cs) with
        | some rest =>
          have hl := matchPat_length hp
          simp only [List.length_cons] at hm hn hl
          have h1 := ih k rest (by omega) (by omega)
          show livePfx ++ subOriginF m rest = livePfx ++ subOriginF k rest
          rw [h1]
        | none =>
          simp only [List.length_cons] at hm hn
          have h1 := ih k cs (by omega) (by omega)
          show c :: subOriginF m cs = c :: subOriginF k cs
          rw [h1]

theorem subOrigin_nil : subOrigin [] = [] := rfl

theorem subOrigin_pos {c : Char} {cs rest : List Char}
    (h : matchPat (c :: cs) = some rest) :
    subOrigin (c :: cs) = livePfx ++ subOrigin rest := by
  have hl := matchPat_length h
  simp only [List.length_cons] at hl
  unfold subOrigin
  simp only [List.length_cons, subOriginF, h]
  rw [subOriginF_congr cs.length rest.length rest (by omega) (Nat.le_refl _)]

theorem subOrigin_neg {c : Char} {cs : List Char}
    (h : matchPat (c :: cs) = none) :
    subOrigin (c :: cs) = c :: subOrigin cs := by
  unfold subOrigin
  simp only [List.length_cons, subOriginF, h]

theorem livePfx_cons : livePfx = '/' :: 'l' :: "ivelan/".data := by decide

/-- A read-back lemma for the rewrite output: a portion of the output that
starts at the front, contains no letter l and does not end in a slash can
only consist of copied characters, hence is a front of the input. -/
theorem subOrigin_front : ∀ (N : Nat) (cs u v : List Char), cs.length = N →
    ('l' ∉ u) → u.getLast? ≠ some '/' →
    subOrigin cs = u ++ v → ∃ w, cs = u ++ w := by
  intro N
  induction N using Nat.strong_induction_on with
  | _ N ih =>
    intro cs u v hlen hl hlast heq
    cases cs with
    | nil =>
      rw [subOrigin_nil] at heq
      have h0 := List.append_eq_nil.mp heq.symm
      exact ⟨[], by simp [h0.1]⟩
    | cons c cs =>
      cases hp : matchPat (c :: cs) with
      | some rest =>
        rw [subOrigin_pos hp] at heq
        cases u with
        | nil => exact ⟨c :: cs, rfl⟩
        | cons u0 u1 =>
          rw [livePfx_cons] at heq
          cases u1 with
          | nil =>
            injection heq with h1 _
            rw [List.getLast?_singleton] at hlast
            exact absurd (congrArg some h1.symm) hlast
          | cons u2 u3 =>
            injection heq with h1 heq2
            injection heq2 with h2 _
            exfalso
            apply hl
            rw [← h2]
            exact List.mem_cons_of_mem u0 (List.mem_cons_self 'l' u3)
      | none =>
        rw [subOrigin_neg hp] at heq
        cases u with
        | nil => exact ⟨c :: cs, rfl⟩
        | cons u0 u1 =>
          injection heq with h1 h2
          have hl1 : 'l' ∉ u1 := fun hm => hl (List.mem_cons_of_mem u0 hm)
          have hlast1 : u1.getLast? ≠ some '/' := by
            cases u1 with
            | nil => simp
            | cons u2 u3 =>
              rw [List.getLast?_cons_cons] at hlast
              exact hlast
          have hlt : cs.length < N := by
            simp only [List.length_cons] at hlen
            omega
          obtain ⟨w, hw⟩ := ih cs.length hlt cs u1 v rfl hl1 hlast1 h2
          exact ⟨w, by rw [hw, h1]; rfl⟩

theorem tailHttp_ok : ('l' ∉ tailHttp) ∧ tailHttp.getLast? ≠ some '/' := by decide

theorem tailHttps_ok : ('l' ∉ tailHttps) ∧ tailHttps.getLast? ≠ some '/' := by decide

/-- The output of the rewrite contains no occurrence of the origin pattern
at any position. -/
theorem subOrigin_noHit : ∀ (N : Nat) (s : List Char), s.length = N →
    ∀ i, matchPat ((subOrigin s).drop i) = none := by
  intro N
  induction N using Nat.strong_induction_on with
  | _ N ih =>
    intro s hlen i
    cases s with
    | nil =>
      rw [subOrigin_nil]
      simp only [List.drop_nil]
      decide
    | cons c cs =>
      cases hp : matchPat (c :: cs) with
      | some rest =>
        rw [subOrigin_pos hp]
        have h9 : livePfx.length = 9 := by decide
        by_cases hi : i < 9
        · rw [List.drop_append_of_le_length (by omega)]
          apply matchPat_none_head
          rw [livePfx_cons]
          interval_cases i <;> simp
        · have hrw : i = livePfx.length + (i - 9) := by omega
          rw [hrw, List.drop_append]
          have hlt : rest.length < N := by
            have := matchPat_length hp
            simp only [List.length_cons] at this hlen
            omega
          exact ih rest.length hlt rest rfl (i - 9)
      | none =>
        rw [subOrigin_neg hp]
        cases i with
        | zero =>
          simp only [List.drop_zero]
          cases hm : matchPat (c :: subOrigin cs) with
          | none => rfl
          | some r =>
            exfalso
            rcases matchPat_some_cases hm with ⟨q, hq⟩ | ⟨q, hq⟩
            · rw [httpOrigin_cons, List.cons_append] at hq
              injection hq with h1 h2
              obtain ⟨w, hw⟩ :=
                subOrigin_front cs.length cs tailHttp q rfl tailHttp_ok.1 tailHttp_ok.2 h2
              have : matchPat (c :: cs) = some (skipLive w) := by
                rw [h1, hw, ← List.cons_append, ← httpOrigin_cons]
                exact matchPat_http w
              rw [this] at hp
              exact Option.noConfusion hp
            · rw [httpsOrigin_cons, List.cons_append] at hq
              injection hq with h1 h2
              obtain ⟨w, hw⟩ :=
                subOrigin_front cs.length cs tailHttps q rfl tailHttps_ok.1 tailHttps_ok.2 h2
              have : matchPat (c :: cs) = some (skipLive w) := by
                rw [h1, hw, ← List.cons_append, ← httpsOrigin_cons]
                exact matchPat_https w
              rw [this] at hp
              exact Option.noConfusion hp
        | succ j =>
          simp only [List.drop_succ_cons]
          have hlt : cs.length < N := by
            simp only [List.length_cons] at hlen
            omega
          exact ih cs.length hlt cs rfl j

/-- No suffix of the rewritten text matches the origin pattern. -/
theorem noHit_subOrigin (s : List Char) :
    ∀ i, matchPat ((subOrigin s).drop i) = none :=
  subOrigin_noHit s.length s rfl

/-- A text in which the pattern matches at no position is left unchanged by
the rewrite. -/
theorem subOrigin_fix : ∀ s : List Char,
    (∀ i, matchPat (s.drop i) = none) → subOrigin s = s := by
  intro s
  induction s with
  | nil => intro _; rfl
  | cons c cs ih =>
    intro h
    have h0 := h 0
    simp only [List.drop_zero] at h0
    rw [subOrigin_neg h0]
    have : subOrigin cs = cs := ih fun i => by
      have := h (i + 1)
      simpa using this
    rw [this]

/-- The rewrite is idempotent. -/
theorem subOrigin_idem (s : List Char) : subOrigin (subOrigin s) = subOrigin s :=
  subOrigin_fix _ (noHit_subOrigin s)

theorem iterContent_flatten : ∀ (N : Nat) (b : List Nat), b.length = N →
    (iterContent b).flatten = b := by
  intro N
  induction N using Nat.strong_induction_on with
  | _ N ih =>
    intro b hlen
    cases b with
    | nil => rw [iterContent]; rfl
    | cons x xs =>
      rw [iterContent]
      simp only [List.flatten_cons]
      have hlt : ((x :: xs).drop 8192).length < N := by
        simp only [List.length_drop, List.length_cons] at hlen ⊢
        omega
      rw [ih _ hlt _ rfl, List.take_append_drop]

theorem flatten_filter_nonempty : ∀ L : List (List Nat),
    (L.filter (fun c => !c.isEmpty)).flatten = L.flatten := by
  intro L
  induction L with
  | nil => rfl
  | cons c cs ih =>
    rw [List.filter_cons]
    cases hc : c.isEmpty with
    | true =>
      rw [List.isEmpty_iff] at hc
      simp [hc, ih]
    | false => simp [List.flatten_cons, ih]

theorem writtenChunks_flatten (b : List Nat) : (writtenChunks b).flatten = b := by
  unfold writtenChunks
  rw [flatten_filter_nonempty]
  exact iterContent_flatten b.length b rfl

theorem iterContent_chunk_le : ∀ (N : Nat) (b c : List Nat), b.length = N →
    c ∈ iterContent b → c.length ≤ 8192 := by
  intro N
  induction N using Nat.strong_induction_on with
  | _ N ih =>
    intro b c hlen hc
    cases b with
    | nil => rw [iterContent] at hc; cases hc
    | cons x xs =>
      rw [iterContent] at hc
      rcases List.mem_cons.mp hc with h | h
      · rw [h]
        exact List.length_take_le 8192 (x :: xs)
      · have hlt : ((x :: xs).drop 8192).length < N := by
          simp only [List.length_drop, List.length_cons] at hlen ⊢
          omega
        exact ih _ hlt _ c rfl h

theorem writtenChunks_sound (b : List Nat) :
    ∀ c ∈ writtenChunks b, c ≠ [] ∧ c.length ≤ 8192 := by
  intro c hc
  unfold writtenChunks at hc
  have h1 := List.of_mem_filter hc
  have h2 := List.mem_of_mem_filter hc
  constructor
  · simp only [Bool.not_eq_true'] at h1
    exact fun hn => by rw [hn] at h1; simp at h1
  · exact iterContent_chunk_le b.length b c rfl h2

theorem headerCount_nil (n : String) : headerCount n [] = 0 := rfl

theorem headerCount_cons (n k v : String) (hs : List (String × String)) :
    headerCount n ((k, v) :: hs)
      = (if k == n then 1 else 0) + headerCount n hs := by
  unfold headerCount
  rw [List.filter_cons]
  cases h : (k == n) <;> simp [h, Nat.add_comm]

theorem headerCount_append (n : String) (h1 h2 : List (String × String)) :
    headerCount n (h1 ++ h2) = headerCount n h1 + headerCount n h2 := by
  unfold headerCount
  rw [List.filter_append, List.length_append]

theorem headerCountCI_append (n : String) (h1 h2 : List (String × String)) :
    headerCountCI n (h1 ++ h2) = headerCountCI n h1 + headerCountCI n h2 := by
  unfold headerCountCI
  rw [List.filter_append, List.length_append]

theorem headerCount_eq_zero {n : String} {hs : List (String × String)}
    (h : ∀ kv ∈ hs, (kv.1 == n) = false) : headerCount n hs = 0 := by
  induction hs with
  | nil => rfl
  | cons kv tl ih =>
    rcases kv with ⟨k, v⟩
    rw [headerCount_cons, h (k, v) (List.mem_cons_self _ _)]
    simp only [if_neg Bool.false_ne_true, Nat.zero_add]
    exact ih fun kv hm => h kv (List.mem_cons_of_mem _ hm)

theorem headerCountCI_eq_zero {n : String} {hs : List (String × String)}
    (h : ∀ kv ∈ hs, (lowerStr kv.1 == n) = false) : headerCountCI n hs = 0 := by
  unfold headerCountCI
  rw [List.filter_eq_nil_iff.mpr (by intro kv hm; simp [h kv hm])]
  rfl

theorem headerCount_cors_one : ∀ n ∈ corsNames, headerCount n corsHeaders = 1 := by
  intro n hn
  fin_cases hn <;> decide

theorem mem_filterHeaders_not_excluded {hs : List (String × String)}
    {kv : String × String} (h : kv ∈ filterHeaders hs) :
    excludedHeaders.contains (lowerStr kv.1) = false := by
  have := List.of_mem_filter h
  simpa using this

theorem headerCountCI_filterHeaders_cl (hs : List (String × String)) :
    headerCountCI "content-length" (filterHeaders hs) = 0 := by
  apply headerCountCI_eq_zero
  intro kv hm
  have h1 := mem_filterHeaders_not_excluded hm
  cases h2 : (lowerStr kv.1 == "content-length") with
  | false => rfl
  | true =>
    exfalso
    rw [beq_iff_eq] at h2
    rw [h2] at h1
    simp [excludedHeaders] at h1

theorem headerCountCI_cors_cl : headerCountCI "content-length" corsHeaders = 0 := by
  decide

/-- Unfolding of the playlist branch of proxy_request. -/
theorem proxy_playlist (path : List Char) (r : UpstreamOk)
    (h : endsWithL ".m3u8".data path = true) :
    proxy_request path (.ok r)
      = { status := r.status
        , reason := none
        , headers := filterHeaders r.headers
            ++ [("Content-Length", toString (utf8Encode (subOrigin r.bodyText)).length)]
            ++ corsHeaders
        , body := utf8Encode (subOrigin r.bodyText) } := by
  simp [proxy_request, h]

/-- Unfolding of the passthrough branch of proxy_request. -/
theorem proxy_passthrough (path : List Char) (r : UpstreamOk)
    (h : endsWithL ".m3u8".data path = false) :
    proxy_request path (.ok r)
      = { status := r.status
        , reason := none
        , headers := filterHeaders r.headers ++ corsHeaders
        , body := (writtenChunks r.bodyBytes).flatten } := by
  simp [proxy_request, h]

theorem not_mem_of_contains_false {a : String} {l : List String}
    (h : l.contains a = false) : a ∉ l := by
  intro hm
  have h2 : l.contains a = true := List.elem_iff.mpr hm
  rw [h2] at h
  exact Bool.noConfusion h

theorem headerCountCI_cl_single (v : String) :
    headerCountCI "content-length" [("Content-Length", v)] = 1 := by
  have h : (lowerStr "Content-Length" == "content-length") = true := by decide
  unfold headerCountCI
  simp [List.filter_cons, h]

/-- C1: for a playlist request the upstream text is rewritten by the global
origin substitution, the response body is its UTF-8 encoding, the
Content-Length header sent equals that byte length, lines without an
origin reference are unchanged, and on the three-line sample of the spec
both origin references become the bare namespace. -/
theorem claim_C1_playlist_rewrite (path : List Char) (r : UpstreamOk)
    (h : endsWithL ".m3u8".data path = true) :
    (proxy_request path (.ok r)).body = utf8Encode (subOrigin r.bodyText)
    ∧ ("Content-Length", toString (proxy_request path (.ok r)).body.length)
        ∈ (proxy_request path (.ok r)).headers
    ∧ (∀ line : List Char, (∀ i, matchPat (line.drop i) = none) → subOrigin line = line)
    ∧ subOrigin samplePlaylist = samplePlaylistRewritten := by
  rw [proxy_playlist path r h]
  refine ⟨rfl, by simp, fun line => subOrigin_fix line, by decide⟩

/-- Witness for C1 at a concrete playlist request. -/
theorem claim_C1_playlist_rewrite_witness :
    (proxy_request "/livelan/play.m3u8".data (.ok sampleUpstream)).body
      = utf8Encode (subOrigin sampleUpstream.bodyText)
    ∧ subOrigin samplePlaylist = samplePlaylistRewritten := by
  have h := claim_C1_playlist_rewrite "/livelan/play.m3u8".data sampleUpstream (by decide)
  exact ⟨h.1, h.2.2.2⟩

/-- C3: for a proxied non-playlist request the client body equals the
upstream bytes, the written chunks are the nonempty chunks of at most 8192
bytes, and no Content-Length header at all is sent. -/
theorem claim_C3_passthrough (path : List Char) (r : UpstreamOk)
    (h : endsWithL ".m3u8".data path = false) :
    (proxy_request path (.ok r)).body = r.bodyBytes
    ∧ (proxy_request path (.ok r)).body = (writtenChunks r.bodyBytes).flatten
    ∧ (∀ c ∈ writtenChunks r.bodyBytes, c ≠ [] ∧ c.length ≤ 8192)
    ∧ headerCountCI "content-length" (proxy_request path (.ok r)).headers = 0 := by
  rw [proxy_passthrough path r h]
  refine ⟨writtenChunks_flatten r.bodyBytes, rfl, writtenChunks_sound r.bodyBytes, ?_⟩
  rw [headerCountCI_append, headerCountCI_filterHeaders_cl, headerCountCI_cors_cl]

/-- Witness for C3 at a concrete segment request. -/
theorem claim_C3_passthrough_witness :
    (proxy_request "/livelan/seg1.ts".data (.ok sampleUpstream)).body
      = sampleUpstream.bodyBytes :=
  (claim_C3_passthrough "/livelan/seg1.ts".data sampleUpstream (by decide)).1

/-- C4: the forwarded headers are exactly the upstream headers minus the
excluded names (case-insensitively) followed by the engine headers; every
unexcluded upstream header is forwarded; and a Content-Length name occurs
exactly once in the playlist branch and never otherwise. -/
theorem claim_C4_header_filtering (path : List Char) (r : UpstreamOk) :
    (proxy_request path (.ok r)).headers
      = filterHeaders r.headers
        ++ (if endsWithL ".m3u8".data path then
              ("Content-Length",
                toString (utf8Encode (subOrigin r.bodyText)).length) :: corsHeaders
            else corsHeaders)
    ∧ (∀ kv ∈ r.headers, excludedHeaders.contains (lowerStr kv.1) = false →
        kv ∈ (proxy_request path (.ok r)).headers)
    ∧ headerCountCI "content-length" (proxy_request path (.ok r)).headers
      = (if endsWithL ".m3u8".data path then 1 else 0) := by
  cases h : endsWithL ".m3u8".data path with
  | true =>
    rw [proxy_playlist path r h]
    refine ⟨by simp, ?_, ?_⟩
    · intro kv hm hex
      simp only [List.mem_append]
      exact Or.inl (Or.inl (List.mem_filter.mpr
        ⟨hm, by simp; exact not_mem_of_contains_false hex⟩))
    · rw [if_pos rfl, headerCountCI_append, headerCountCI_append,
        headerCountCI_filterHeaders_cl, headerCountCI_cl_single, headerCountCI_cors_cl]
  | false =>
    rw [proxy_passthrough path r h]
    refine ⟨by simp, ?_, ?_⟩
    · intro kv hm hex
      simp only [List.mem_append]
      exact Or.inl (List.mem_filter.mpr
        ⟨hm, by simp; exact not_mem_of_contains_false hex⟩)
    · rw [if_neg Bool.false_ne_true, headerCountCI_append,
        headerCountCI_filterHeaders_cl, headerCountCI_cors_cl]

/-- Witness for C4 at a concrete upstream response carrying an excluded and
an allowed header. -/
theorem claim_C4_header_filtering_witness :
    ("Content-Type", "video/mp2t")
      ∈ (proxy_request "/livelan/seg1.ts".data
          (.ok { status := 200
               , headers := [("Content-Length", "999"), ("Content-Type", "video/mp2t")]
               , bodyBytes := []
               , bodyText := [] })).headers :=
  (claim_C4_header_filtering "/livelan/seg1.ts".data _).2.1
    ("Content-Type", "video/mp2t") (by decide) (by decide)

/-- C9: the playlist rewrite is idempotent, because its output never again
contains a match of the origin pattern. -/
theorem claim_C9_rewrite_idempotent (s : List Char) :
    subOrigin (subOrigin s) = subOrigin s
    ∧ (∀ i, matchPat ((subOrigin s).drop i) = none) :=
  ⟨subOrigin_idem s, noHit_subOrigin s⟩

/-- C10 counterexample: a proxied path that carries a query string whose
query itself ends in .m3u8 passes the endswith test, so the playlist
branch runs: an engine Content-Length is set and the body is not the
upstream byte stream. -/
theorem claim_C10_counterexample :
    hasLit "?".data queryPath = true
    ∧ endsWithL ".m3u8".data queryPath = true
    ∧ headerCountCI "content-length"
        (proxy_request queryPath (.ok sampleUpstream)).headers = 1
    ∧ (proxy_request queryPath (.ok sampleUpstream)).body
        ≠ sampleUpstream.bodyBytes := by
  decide

/-- C10 as amended: a proxied request whose path carries a query string
takes the passthrough branch, with the upstream bytes streamed unchanged
and no Content-Length, provided the full path string (so in particular the
query) does not itself end in .m3u8. -/
theorem claim_C10_query_passthrough (base q : List Char) (r : UpstreamOk)
    (h : endsWithL ".m3u8".data (base ++ '?' :: q) = false) :
    (proxy_request (base ++ '?' :: q) (.ok r)).body = r.bodyBytes
    ∧ headerCountCI "content-length"
        (proxy_request (base ++ '?' :: q) (.ok r)).headers = 0 := by
  rw [proxy_passthrough _ r h]
  refine ⟨writtenChunks_flatten r.bodyBytes, ?_⟩
  rw [headerCountCI_append, headerCountCI_filterHeaders_cl, headerCountCI_cors_cl]

/-- Witness for the amended C10 at a concrete query-carrying request. -/
theorem claim_C10_query_passthrough_witness :
    (proxy_request ("/livelan/play.m3u8".data ++ '?' :: "token=1".data)
        (.ok sampleUpstream)).body = sampleUpstream.bodyBytes :=
  (claim_C10_query_passthrough "/livelan/play.m3u8".data "token=1".data
    sampleUpstream (by decide)).1

theorem beq_name_false {k n : String} (hn : n ∈ corsNames)
    (hk : corsNames.contains k = false) : (k == n) = false := by
  cases h : (k == n) with
  | false => rfl
  | true =>
    rw [beq_iff_eq] at h
    subst h
    exact absurd hn (not_mem_of_contains_false hk)

theorem errHeaders_name_false (n : String) (hn : n ∈ corsNames) :
    ("Connection" == n) = false ∧ ("Content-Type" == n) = false
    ∧ ("Content-Length" == n) = false := by
  fin_cases hn <;> decide

theorem headerCount_engine (n : String) (hn : n ∈ corsNames)
    (X : List (String × String)) (hX : ∀ kv ∈ X, (kv.1 == n) = false) :
    headerCount n (X ++ corsHeaders) = 1 := by
  rw [headerCount_append, headerCount_eq_zero hX, headerCount_cors_one n hn]

theorem headerCount_send_error (n : String) (hn : n ∈ corsNames)
    (code : Nat) (msg : String) :
    headerCount n (send_error code msg).headers = 1 := by
  apply headerCount_engine n hn
  intro kv hkv
  obtain ⟨h1, h2, h3⟩ := errHeaders_name_false n hn
  simp only [List.mem_cons, List.not_mem_nil, or_false] at hkv
  rcases hkv with rfl | rfl | rfl
  · exact h1
  · exact h2
  · exact h3

/-- C2: a GET whose path starts with the proxy namespace is dispatched to
the proxy engine with the full path and one upstream fetch; any other GET
is served statically, the bare root path replaced by the default
document, with no upstream fetch. -/
theorem claim_C2_routing (st : List Char → StaticOut) (path : List Char) (f : Fetch) :
    (startsWithL livePfx path = true →
      do_GET path = Handler.proxy path
      ∧ handleRequest st "GET" path f = (proxy_request path f, [targetURL path]))
    ∧ (startsWithL livePfx path = false →
      do_GET path
        = Handler.staticFile (if path = "/".data then "/index.html".data else path)
      ∧ (handleRequest st "GET" path f).2 = []
      ∧ (handleRequest st "GET" path f).1.body
          = (st (if path = "/".data then "/index.html".data else path)).body) := by
  constructor
  · intro h
    have hg : do_GET path = Handler.proxy path := by simp [do_GET, h]
    refine ⟨hg, ?_⟩
    simp [handleRequest, hg]
  · intro h
    have hg : do_GET path
        = Handler.staticFile (if path = "/".data then "/index.html".data else path) := by
      simp [do_GET, h]
    refine ⟨hg, ?_, ?_⟩ <;> simp [handleRequest, hg]

/-- Witness for C2 at a concrete proxied path. -/
theorem claim_C2_routing_witness :
    do_GET "/livelan/a.ts".data = Handler.proxy "/livelan/a.ts".data
    ∧ handleRequest sampleStatic "GET" "/livelan/a.ts".data Fetch.timeout
        = (proxy_request "/livelan/a.ts".data Fetch.timeout,
           [targetURL "/livelan/a.ts".data]) :=
  (claim_C2_routing sampleStatic "/livelan/a.ts".data Fetch.timeout).1 (by decide)

/-- C5 counterexample: when the upstream response itself carries one of the
fixed injected header names, the proxied response carries it twice, so the
claim that every response contains the fixed headers exactly once fails. -/
theorem claim_C5_counterexample :
    headerCount "Pragma"
      (handleRequest sampleStatic "GET" "/livelan/a.ts".data (.ok dupUpstream)).1.headers = 2
    ∧ ¬ headerCount "Pragma"
      (handleRequest sampleStatic "GET" "/livelan/a.ts".data (.ok dupUpstream)).1.headers = 1 := by
  decide

/-- C5 as amended: every response carries each of the six fixed
CORS/no-cache headers exactly once, provided neither the upstream response
nor the static handler emits one of those header names itself. -/
theorem claim_C5_headers_once (st : List Char → StaticOut) (method : String)
    (path : List Char) (f : Fetch) (n : String)
    (hn : n ∈ corsNames)
    (hst : ∀ p, ∀ kv ∈ (st p).headers, corsNames.contains kv.1 = false)
    (hup : ∀ r, f = .ok r → ∀ kv ∈ r.headers, corsNames.contains kv.1 = false) :
    headerCount n (handleRequest st method path f).1.headers = 1 := by
  have hcors := headerCount_cors_one n hn
  by_cases hm1 : method = "OPTIONS"
  · subst hm1
    simp only [handleRequest, if_pos rfl]
    exact hcors
  · by_cases hm2 : method = "GET"
    · subst hm2
      simp only [handleRequest, if_neg hm1, if_pos rfl]
      cases hr : do_GET path with
      | proxy p =>
        simp only [hr]
        cases f with
        | ok r =>
          cases hpl : endsWithL ".m3u8".data p with
          | true =>
            rw [proxy_playlist p r hpl]
            apply headerCount_engine n hn
            intro kv hkv
            rcases List.mem_append.mp hkv with hkv | hkv
            · exact beq_name_false hn (hup r rfl kv (List.mem_of_mem_filter hkv))
            · rw [List.mem_singleton.mp hkv]
              exact (errHeaders_name_false n hn).2.2
          | false =>
            rw [proxy_passthrough p r hpl]
            apply headerCount_engine n hn
            intro kv hkv
            exact beq_name_false hn (hup r rfl kv (List.mem_of_mem_filter hkv))
        | timeout => exact headerCount_send_error n hn 504 _
        | connFailure => exact headerCount_send_error n hn 502 _
        | otherFailure msg => exact headerCount_send_error n hn 502 _
      | staticFile p =>
        simp only [hr]
        apply headerCount_engine n hn
        intro kv hkv
        exact beq_name_false hn (hst p kv hkv)
    · simp only [handleRequest, if_neg hm1, if_neg hm2]
      exact headerCount_send_error n hn 501 _

/-- Witness for the amended C5 at a concrete request. -/
theorem claim_C5_headers_once_witness :
    headerCount "Pragma"
      (handleRequest sampleStatic "GET" "/livelan/a.ts".data
        (.ok sampleUpstream)).1.headers = 1 := by
  apply claim_C5_headers_once sampleStatic "GET" "/livelan/a.ts".data
    (.ok sampleUpstream) "Pragma" (by decide)
  · intro p kv hkv
    simp [sampleStatic] at hkv
  · intro r hr kv hkv
    injection hr with h
    subst h
    simp [sampleUpstream] at hkv
    subst hkv
    decide

/-- C6: an upstream timeout on a proxied request is answered with the 504
error response, whose body is exactly the error page, never upstream
bytes. -/
theorem claim_C6_timeout (st : List Char → StaticOut) (path : List Char)
    (h : startsWithL livePfx path = true) :
    (handleRequest st "GET" path .timeout).1 = send_error 504 "Gateway Timeout"
    ∧ (handleRequest st "GET" path .timeout).1.status = 504
    ∧ (handleRequest st "GET" path .timeout).1.body
        = errorBody 504 "Gateway Timeout" := by
  have hg : do_GET path = Handler.proxy path := by simp [do_GET, h]
  have hh : handleRequest st "GET" path .timeout
      = (proxy_request path .timeout, [targetURL path]) := by
    simp [handleRequest, hg]
  rw [hh]
  exact ⟨rfl, rfl, rfl⟩

/-- Witness for C6 at a concrete proxied path. -/
theorem claim_C6_timeout_witness :
    (handleRequest sampleStatic "GET" "/livelan/seg1.ts".data Fetch.timeout).1.status
      = 504 :=
  (claim_C6_timeout sampleStatic "/livelan/seg1.ts".data (by decide)).2.1

/-- C7: an upstream connection failure on a proxied request is answered
with a 502 whose status line indicates the inability to connect, and every
fetch outcome produces a response (the handler returns instead of
raising). -/
theorem claim_C7_connfail (st : List Char → StaticOut) (path : List Char)
    (h : startsWithL livePfx path = true) :
    (handleRequest st "GET" path .connFailure).1.status = 502
    ∧ (handleRequest st "GET" path .connFailure).1.reason
        = some "Bad Gateway: Cannot connect to stream server"
    ∧ hasLit "Cannot connect".data
        "Bad Gateway: Cannot connect to stream server".data = true
    ∧ (∀ g : Fetch, ∃ resp : Response,
        handleRequest st "GET" path g = (resp, [targetURL path])) := by
  have hg : do_GET path = Handler.proxy path := by simp [do_GET, h]
  have hh : ∀ g : Fetch, handleRequest st "GET" path g
      = (proxy_request path g, [targetURL path]) := by
    intro g
    simp [handleRequest, hg]
  refine ⟨?_, ?_, by decide, fun g => ⟨proxy_request path g, hh g⟩⟩
  · rw [hh .connFailure]
    rfl
  · rw [hh .connFailure]
    rfl

/-- Witness for C7 at a concrete proxied path. -/
theorem claim_C7_connfail_witness :
    (handleRequest sampleStatic "GET" "/livelan/seg1.ts".data Fetch.connFailure).1.status
      = 502 :=
  (claim_C7_connfail sampleStatic "/livelan/seg1.ts".data (by decide)).1

/-- C8: an OPTIONS request to any path is terminal: status 200, only the
fixed injected headers, an empty body, and no upstream fetch. -/
theorem claim_C8_options (st : List Char → StaticOut) (path : List Char) (f : Fetch) :
    handleRequest st "OPTIONS" path f
      = ({ status := 200, reason := none, headers := corsHeaders, body := [] }, []) := by
  simp [handleRequest]
